import Mathlib

/-!
# Typha validation filter

A shallow embedding of `typha/pkg/calc/validation_filter.go`: the
`ValidationFilter` sits between a syncer and a sink, validates every update,
tombstones the invalid ones, projects Node keys onto Host-IP keys and forwards
status events untouched.

Go interface values are embedded as explicit inductive types.  A nil pointer
dereference (lines 80 and 91) is a fault: the loop body returns `none`, the
call is abandoned and the sink is not called.  Logging has no effect on what
the sink receives and is left out.
-/

namespace Calico

/-! ## Data model (package `model`, `net` and `api`) -/

/-- Modelled from the spec: the address type of package `net`, declared outside
this file of the repository.  An address is a scalar, written here in its
textual form. -/
structure IP where
  addr : String
  deriving DecidableEq, Repr

/-- Modelled from the spec: the Node record `model.Node`, declared outside this
file of the repository.  Its address field `FelixIPv4` may be absent: it is a
`*net.IP`, nil when there is no address. -/
structure Node where
  FelixIPv4 : Option IP
  Labels : List (String × String) := []
  BGPIPv4Addr : Option IP := none
  BGPIPv6Addr : Option IP := none
  BGPASNumber : Option Nat := none
  deriving DecidableEq, Repr

/-- Modelled from the spec: the workload endpoint record
`model.WorkloadEndpoint`, declared outside this file of the repository; the
filter reads its `Name` only. -/
structure WorkloadEndpoint where
  Name : String
  State : String := ""
  Mac : String := ""
  ProfileIDs : List String := []
  deriving DecidableEq, Repr

/-- A struct value, as handed to a validator by `elem.Interface()`.  The two
record types the filter inspects are explicit; every other struct type is
`Other`, tagged with its type name. -/
inductive Record where
  | Node (node : Node)
  | WorkloadEndpoint (wep : WorkloadEndpoint)
  | Other (typeName : String) (fields : List String)
  deriving DecidableEq, Repr

/-- The dynamic content of `update.Value` (a Go `interface{}`), split by what
the filter observes of it:
* `nil`: the nil interface, the only value for which `update.Value != nil`
  is false;
* `Ptr r`: a non-nil pointer to the struct `r` (`val.Kind() == reflect.Ptr`
  and `elem.Kind() == reflect.Struct`);
* `NilNodePtr`: an interface holding a nil `*model.Node`; it is not the nil
  interface, its `Elem()` is not a struct, and the type assertion of line 78
  succeeds on it;
* `NilWorkloadEndpointPtr`: an interface holding a nil
  `*model.WorkloadEndpoint`; it is not the nil interface, its `Elem()` is not
  a struct, and the type switch of line 90 matches it;
* `IPPtr ip`: a non-nil `*net.IP`, the address of a Host-IP key.  Modelled
  from the spec: the address is a scalar and not a structured record, so
  lines 61-63 do not hand it to a validator;
* `NilIPPtr`: an interface holding a nil `*net.IP`, which is what line 80
  stores for a Node without address; it is not the nil interface, and its
  `Elem()` is not a struct;
* `Scalar`: any other present value (a string, a number, a nil pointer of
  another type, ...), which is neither a pointer to a struct, nor a
  `*model.Node`, nor a `*model.WorkloadEndpoint`. -/
inductive Value where
  | nil
  | Ptr (r : Record)
  | NilNodePtr
  | NilWorkloadEndpointPtr
  | IPPtr (ip : IP)
  | NilIPPtr
  | Scalar (typeName : String) (repr : String)
  deriving DecidableEq, Repr

/-- Modelled from the spec: the dynamic content of `update.Key` (interface
`model.Key`, declared outside this file of the repository).  The filter tests
for `model.ResourceKey` and `model.NodeKey` only; `HostIPKey` has the single
field of `NodeKey`, so that the conversion of line 76 keeps the host name. -/
inductive Key where
  | nil
  | NodeKey (Hostname : String)
  | HostIPKey (Hostname : String)
  | WorkloadEndpointKey (Hostname OrchestratorID WorkloadID EndpointID : String)
  | ResourceKey (Kind Name Namespace : String)
  | Other (typeName : String) (ident : String)
  deriving DecidableEq, Repr

/-- Modelled from the spec: the kind of change an update reports
(`api.UpdateType`), part of the metadata the filter copies as it is. -/
inductive UpdateType where
  | UpdateTypeKVUnknown
  | UpdateTypeKVNew
  | UpdateTypeKVUpdated
  | UpdateTypeKVDeleted
  deriving DecidableEq, Repr

/-- Modelled from the spec: an `api.Update`, the key/value pair with the
revision and update type supplied by the syncer. -/
structure Update where
  Key : Key
  Value : Value
  Revision : String := ""
  UpdateType : UpdateType := UpdateType.UpdateTypeKVUnknown
  deriving DecidableEq, Repr

/-- The zero `api.Update`, as produced by `make([]api.Update, n)`. -/
def Update.zero : Update :=
  { Key := Key.nil, Value := Value.nil, Revision := "",
    UpdateType := UpdateType.UpdateTypeKVUnknown }

/-- Modelled from the spec: sync status events (`api.SyncStatus`). -/
inductive SyncStatus where
  | WaitForDatastore
  | ResyncInProgress
  | InSync
  deriving DecidableEq, Repr

/-- The type of the two validators `v1v.Validate` and `v3v.Validate`, which the
filter takes as they come: a struct goes in and an error comes out, `none`
being the nil error. -/
abbrev Validator := Record → Option String

/-- Storing a `*net.IP` field in an `interface{}` (line 80): a nil pointer
becomes an interface that holds a nil pointer, not the nil interface. -/
def ifaceOfIPPtr : Option IP → Value
  | none => Value.NilIPPtr
  | some ip => Value.IPPtr ip

/-! ## The filter (lines 44-100) -/

/-- Lines 52-58: the v3 validator for resource keys, the v1 validator for
everything else. -/
def validatorFunc (v1v v3v : Validator) (key : Key) : Validator :=
  match key with
  | Key.ResourceKey _ _ _ => v3v
  | _ => v1v

/-- Lines 60-69: a pointer to a struct is validated and set to nil when the
validator returns an error. -/
def validateStep (validate : Validator) (update : Update) : Update :=
  match update.Value with
  | Value.Ptr r =>
    if (validate r).isSome then { update with Value := Value.nil } else update
  | _ => update

/-- Lines 71-87: a Node key becomes the Host-IP key of the same host, and a
value that is still present becomes the `FelixIPv4` of the Node, or nil when it is
not a `*Node`.  On a nil `*Node` the assertion of line 78 succeeds and line 80
dereferences the nil pointer: `none`. -/
def nodeKeyStep (update : Update) : Option Update :=
  match update.Key with
  | Key.NodeKey h =>
    let update := { update with Key := Key.HostIPKey h }
    if update.Value ≠ Value.nil then
      match update.Value with
      | Value.Ptr (Record.Node node) =>
        some { update with Value := ifaceOfIPPtr node.FelixIPv4 }
      | Value.NilNodePtr => none
      | _ => some { update with Value := Value.nil }
    else some update
  | _ => some update

/-- Lines 89-95: a `*WorkloadEndpoint` with an empty name is set to nil.  On a
nil `*WorkloadEndpoint` line 91 dereferences the nil pointer: `none`. -/
def missingNameStep (update : Update) : Option Update :=
  match update.Value with
  | Value.Ptr (Record.WorkloadEndpoint v) =>
    if v.Name = "" then some { update with Value := Value.nil } else some update
  | Value.NilWorkloadEndpointPtr => none
  | _ => some update

/-- The body of the loop of `OnUpdates` (lines 47-97) for one update; `none`
when it faults. -/
def filterUpdate (v1v v3v : Validator) (update : Update) : Option Update :=
  let validate := validatorFunc v1v v3v update.Key
  if update.Value ≠ Value.nil then
    (nodeKeyStep (validateStep validate update)).bind missingNameStep
  else some update

/-- The loop of lines 46-98: iteration `i` stores the filtered update at
index `i` of `filteredUpdates`; a fault in the body abandons the loop. -/
def fillFiltered (v1v v3v : Validator) :
    List Update → Nat → List Update → Option (List Update)
  | [], _, filteredUpdates => some filteredUpdates
  | update :: rest, i, filteredUpdates =>
    match filterUpdate v1v v3v update with
    | none => none
    | some filtered => fillFiltered v1v v3v rest (i + 1) (filteredUpdates.set i filtered)

/-- Lines 45-98: the batch handed to the sink, `none` when the loop faults and
line 99 is not reached. -/
def filteredUpdates (v1v v3v : Validator) (updates : List Update) : Option (List Update) :=
  fillFiltered v1v v3v updates 0 (List.replicate updates.length Update.zero)

/-- The sink (`api.SyncerCallbacks`) as a state machine over `σ`. -/
structure SyncerCallbacks (σ : Type) where
  OnStatusUpdated : σ → SyncStatus → σ
  OnUpdates : σ → List Update → σ

/-- The filter holds its sink and nothing else (lines 35-37). -/
structure ValidationFilter (σ : Type) where
  sink : SyncerCallbacks σ

/-- Lines 29-33. -/
def NewValidationFilter {σ : Type} (sink : SyncerCallbacks σ) : ValidationFilter σ :=
  { sink := sink }

/-- Lines 39-42: pass through. -/
def ValidationFilter.OnStatusUpdated {σ : Type} (v : ValidationFilter σ)
    (s : σ) (status : SyncStatus) : σ :=
  v.sink.OnStatusUpdated s status

/-- Lines 44-100: filter the batch and hand it to the sink in one call; `none`
when the loop faults, in which case the sink is not called. -/
def ValidationFilter.OnUpdates {σ : Type} (v : ValidationFilter σ)
    (v1v v3v : Validator) (s : σ) (updates : List Update) : Option σ :=
  match filteredUpdates v1v v3v updates with
  | none => none
  | some filtered => some (v.sink.OnUpdates s filtered)

/-- A call on the `SyncerCallbacks` interface. -/
inductive Call where
  | OnStatusUpdated (status : SyncStatus)
  | OnUpdates (updates : List Update)
  deriving DecidableEq, Repr

/-- A sink that records every call it receives, in order. -/
def recordingSink : SyncerCallbacks (List Call) where
  OnStatusUpdated := fun log status => log ++ [Call.OnStatusUpdated status]
  OnUpdates := fun log updates => log ++ [Call.OnUpdates updates]

/-- The syncer drives the filter with a sequence of calls, one at a time; a
fault ends the run. -/
def ValidationFilter.run {σ : Type} (v : ValidationFilter σ) (v1v v3v : Validator) :
    σ → List Call → Option σ
  | s, [] => some s
  | s, Call.OnStatusUpdated status :: rest =>
    ValidationFilter.run v v1v v3v (v.OnStatusUpdated s status) rest
  | s, Call.OnUpdates updates :: rest =>
    match v.OnUpdates v1v v3v s updates with
    | none => none
    | some s1 => ValidationFilter.run v v1v v3v s1 rest

/-- Delivering a sequence of calls to a sink directly, one at a time. -/
def SyncerCallbacks.deliver {σ : Type} (sink : SyncerCallbacks σ) : σ → List Call → σ
  | s, [] => s
  | s, Call.OnStatusUpdated status :: rest =>
    SyncerCallbacks.deliver sink (sink.OnStatusUpdated s status) rest
  | s, Call.OnUpdates updates :: rest =>
    SyncerCallbacks.deliver sink (sink.OnUpdates s updates) rest

/-! ## Sample data -/

/-- A validator that accepts everything. -/
def acceptAll : Validator := fun _ => none

/-- A validator that rejects everything. -/
def rejectAll : Validator := fun _ => some "invalid"

/-! ## The loop computes a positionwise map -/

theorem fillFiltered_of_forall₂ (v1v v3v : Validator) (updates outs : List Update)
    (h : List.Forall₂ (fun u o => filterUpdate v1v v3v u = some o) updates outs) :
    ∀ (done rest : List Update), updates.length ≤ rest.length →
      fillFiltered v1v v3v updates done.length (done ++ rest)
        = some (done ++ outs ++ rest.drop updates.length) := by
  induction h with
  | nil => intro done rest _; simp [fillFiltered]
  | @cons u o us os hu _ ih =>
    intro done rest hlen
    cases rest with
    | nil => simp at hlen
    | cons z zs =>
      have hlen2 : us.length ≤ zs.length := by simpa using hlen
      have hset : (done ++ z :: zs).set done.length o = (done ++ [o]) ++ zs := by
        simp [List.set_append]
      have hstep := ih (done ++ [o]) zs hlen2
      simp only [List.length_append, List.length_singleton] at hstep
      simp only [fillFiltered, hu, hset, hstep]
      simp

theorem fillFiltered_of_fault (v1v v3v : Validator) (updates : List Update)
    (h : ∃ u ∈ updates, filterUpdate v1v v3v u = none) :
    ∀ (i : Nat) (acc : List Update), fillFiltered v1v v3v updates i acc = none := by
  induction updates with
  | nil => simp at h
  | cons u us ih =>
    intro i acc
    cases hu : filterUpdate v1v v3v u with
    | none => simp [fillFiltered, hu]
    | some o =>
      have hrest : ∃ w ∈ us, filterUpdate v1v v3v w = none := by
        obtain ⟨w, hw, hwn⟩ := h
        rcases List.mem_cons.mp hw with rfl | hmem
        · rw [hu] at hwn; cases hwn
        · exact ⟨w, hmem, hwn⟩
      simp only [fillFiltered, hu]
      exact ih hrest _ _

theorem forall₂_or_fault (v1v v3v : Validator) (updates : List Update) :
    (∃ outs, List.Forall₂ (fun u o => filterUpdate v1v v3v u = some o) updates outs) ∨
    (∃ u ∈ updates, filterUpdate v1v v3v u = none) := by
  induction updates with
  | nil => exact Or.inl ⟨[], List.Forall₂.nil⟩
  | cons u us ih =>
    cases hu : filterUpdate v1v v3v u with
    | none => exact Or.inr ⟨u, List.mem_cons_self _ _, hu⟩
    | some o =>
      rcases ih with ⟨outs, h⟩ | ⟨w, hw, hwn⟩
      · exact Or.inl ⟨o :: outs, List.Forall₂.cons hu h⟩
      · exact Or.inr ⟨w, List.mem_cons_of_mem _ hw, hwn⟩

theorem filteredUpdates_of_forall₂ (v1v v3v : Validator) (updates outs : List Update)
    (h : List.Forall₂ (fun u o => filterUpdate v1v v3v u = some o) updates outs) :
    filteredUpdates v1v v3v updates = some outs := by
  have := fillFiltered_of_forall₂ v1v v3v updates outs h []
    (List.replicate updates.length Update.zero) (by simp)
  simpa [filteredUpdates] using this

theorem filteredUpdates_eq_some_iff (v1v v3v : Validator) (updates outs : List Update) :
    filteredUpdates v1v v3v updates = some outs ↔
      List.Forall₂ (fun u o => filterUpdate v1v v3v u = some o) updates outs := by
  constructor
  · intro h
    rcases forall₂_or_fault v1v v3v updates with ⟨os, hos⟩ | hf
    · have h2 := filteredUpdates_of_forall₂ v1v v3v updates os hos
      rw [h] at h2
      cases h2
      exact hos
    · have h2 := fillFiltered_of_fault v1v v3v updates hf 0
        (List.replicate updates.length Update.zero)
      rw [filteredUpdates, h2] at h
      cases h
  · exact filteredUpdates_of_forall₂ v1v v3v updates outs

theorem filteredUpdates_eq_none_iff (v1v v3v : Validator) (updates : List Update) :
    filteredUpdates v1v v3v updates = none ↔
      ∃ u ∈ updates, filterUpdate v1v v3v u = none := by
  constructor
  · intro h
    rcases forall₂_or_fault v1v v3v updates with ⟨os, hos⟩ | hf
    · rw [filteredUpdates_of_forall₂ v1v v3v updates os hos] at h
      cases h
    · exact hf
  · intro hf
    exact fillFiltered_of_fault v1v v3v updates hf 0 _

theorem forall₂_getElem? (v1v v3v : Validator) (updates outs : List Update)
    (h : List.Forall₂ (fun u o => filterUpdate v1v v3v u = some o) updates outs) :
    ∀ (i : Nat) (update : Update), updates[i]? = some update →
      ∃ o, outs[i]? = some o ∧ filterUpdate v1v v3v update = some o := by
  induction h with
  | nil => intro i update hi; simp at hi
  | @cons u o us os hu _ ih =>
    intro i update hi
    cases i with
    | zero =>
      simp only [List.getElem?_cons_zero, Option.some.injEq] at hi
      subst hi
      exact ⟨o, by simp, hu⟩
    | succ j =>
      simp only [List.getElem?_cons_succ] at hi
      simpa using ih j update hi

/-- The update forwarded at a position is the filtered form of the input update
at that position. -/
theorem filteredUpdates_at (v1v v3v : Validator) (updates out : List Update) (i : Nat)
    (update filtered : Update)
    (hout : filteredUpdates v1v v3v updates = some out)
    (hi : updates[i]? = some update)
    (hf : filterUpdate v1v v3v update = some filtered) :
    out[i]? = some filtered := by
  obtain ⟨o, ho, hfo⟩ := forall₂_getElem? v1v v3v updates out
    ((filteredUpdates_eq_some_iff v1v v3v updates out).mp hout) i update hi
  rw [hf] at hfo
  cases hfo
  exact ho

/-! ## Runs of the filter against a recording sink -/

theorem run_cons_status {σ : Type} (v : ValidationFilter σ) (v1v v3v : Validator) (s : σ)
    (status : SyncStatus) (rest : List Call) :
    v.run v1v v3v s (Call.OnStatusUpdated status :: rest) =
      v.run v1v v3v (v.sink.OnStatusUpdated s status) rest := rfl

theorem run_cons_updates {σ : Type} (v : ValidationFilter σ) (v1v v3v : Validator) (s : σ)
    (updates : List Update) (rest : List Call) :
    v.run v1v v3v s (Call.OnUpdates updates :: rest) =
      (filteredUpdates v1v v3v updates).bind
        (fun out => v.run v1v v3v (v.sink.OnUpdates s out) rest) := by
  rw [ValidationFilter.run]
  simp only [ValidationFilter.OnUpdates]
  cases filteredUpdates v1v v3v updates <;> rfl

theorem recording_OnStatusUpdated (log : List Call) (status : SyncStatus) :
    (NewValidationFilter recordingSink).sink.OnStatusUpdated log status =
      log ++ [Call.OnStatusUpdated status] := rfl

theorem recording_OnUpdates (log : List Call) (out : List Update) :
    (NewValidationFilter recordingSink).sink.OnUpdates log out =
      log ++ [Call.OnUpdates out] := rfl

theorem sink_of_new {σ : Type} (sink : SyncerCallbacks σ) :
    (NewValidationFilter sink).sink = sink := rfl

theorem run_recording_shift (v1v v3v : Validator) (calls : List Call) :
    ∀ log : List Call,
      (NewValidationFilter recordingSink).run v1v v3v log calls =
        ((NewValidationFilter recordingSink).run v1v v3v [] calls).map (fun r => log ++ r) := by
  induction calls with
  | nil => intro log; simp [ValidationFilter.run]
  | cons c rest ih =>
    intro log
    cases c with
    | OnStatusUpdated status =>
      rw [run_cons_status, run_cons_status, recording_OnStatusUpdated,
        recording_OnStatusUpdated, ih (log ++ [Call.OnStatusUpdated status]),
        ih ([] ++ [Call.OnStatusUpdated status])]
      simp [Option.map_map, Function.comp_def]
    | OnUpdates updates =>
      rw [run_cons_updates, run_cons_updates]
      cases filteredUpdates v1v v3v updates with
      | none => simp
      | some out =>
        simp only [Option.some_bind, recording_OnUpdates]
        rw [ih (log ++ [Call.OnUpdates out]), ih ([] ++ [Call.OnUpdates out])]
        simp [Option.map_map, Function.comp_def]

theorem run_eq_deliver {σ : Type} (sink : SyncerCallbacks σ) (v1v v3v : Validator)
    (calls : List Call) :
    ∀ s : σ, (NewValidationFilter sink).run v1v v3v s calls =
      ((NewValidationFilter recordingSink).run v1v v3v [] calls).map (sink.deliver s) := by
  induction calls with
  | nil => intro s; simp [ValidationFilter.run, SyncerCallbacks.deliver]
  | cons c rest ih =>
    intro s
    cases c with
    | OnStatusUpdated status =>
      rw [run_cons_status, run_cons_status, ih, recording_OnStatusUpdated,
        run_recording_shift v1v v3v rest ([] ++ [Call.OnStatusUpdated status]), sink_of_new]
      simp [Option.map_map, Function.comp_def, SyncerCallbacks.deliver]
    | OnUpdates updates =>
      rw [run_cons_updates, run_cons_updates]
      cases filteredUpdates v1v v3v updates with
      | none => simp
      | some out =>
        simp only [Option.some_bind, recording_OnUpdates]
        rw [ih, run_recording_shift v1v v3v rest ([] ++ [Call.OnUpdates out]), sink_of_new]
        simp [Option.map_map, Function.comp_def, SyncerCallbacks.deliver]

theorem run_recording_iff (v1v v3v : Validator) (calls : List Call) :
    ∀ received : List Call,
      (NewValidationFilter recordingSink).run v1v v3v [] calls = some received ↔
        List.Forall₂ (fun c d => match c with
          | Call.OnStatusUpdated status => d = Call.OnStatusUpdated status
          | Call.OnUpdates updates =>
            ∃ out, filteredUpdates v1v v3v updates = some out ∧ d = Call.OnUpdates out)
          calls received := by
  induction calls with
  | nil =>
    intro received
    simp only [ValidationFilter.run, Option.some.injEq, List.forall₂_nil_left_iff]
    exact eq_comm
  | cons c rest ih =>
    intro received
    rw [List.forall₂_cons_left_iff]
    cases c with
    | OnStatusUpdated status =>
      rw [run_cons_status, recording_OnStatusUpdated, run_recording_shift,
        Option.map_eq_some']
      constructor
      · rintro ⟨r, hr, rfl⟩
        exact ⟨_, r, rfl, (ih r).mp hr, rfl⟩
      · rintro ⟨d, r, hd, hr, rfl⟩
        subst hd
        exact ⟨r, (ih r).mpr hr, rfl⟩
    | OnUpdates updates =>
      rw [run_cons_updates]
      cases hf : filteredUpdates v1v v3v updates with
      | none =>
        simp only [Option.none_bind]
        constructor
        · intro h; cases h
        · rintro ⟨d, r, ⟨out, ho, _⟩, _, _⟩
          rw [hf] at ho
          cases ho
      | some out =>
        simp only [Option.some_bind, recording_OnUpdates]
        rw [run_recording_shift, Option.map_eq_some']
        constructor
        · rintro ⟨r, hr, rfl⟩
          exact ⟨_, r, ⟨out, hf, rfl⟩, (ih r).mp hr, rfl⟩
        · rintro ⟨d, r, ⟨o, ho, hd⟩, hr, rfl⟩
          rw [hf] at ho
          cases ho
          subst hd
          exact ⟨r, (ih r).mpr hr, rfl⟩

theorem run_recording_isSome (v1v v3v : Validator) (calls : List Call)
    (h : ∀ updates, Call.OnUpdates updates ∈ calls → filteredUpdates v1v v3v updates ≠ none) :
    ∀ log : List Call, ∃ final, (NewValidationFilter recordingSink).run v1v v3v log calls
      = some final := by
  induction calls with
  | nil => intro log; exact ⟨log, rfl⟩
  | cons c rest ih =>
    intro log
    have hrest : ∀ updates, Call.OnUpdates updates ∈ rest →
        filteredUpdates v1v v3v updates ≠ none :=
      fun updates hm => h updates (List.mem_cons_of_mem _ hm)
    cases c with
    | OnStatusUpdated status =>
      rw [ValidationFilter.run]
      exact ih hrest _
    | OnUpdates updates =>
      rw [ValidationFilter.run]
      simp only [ValidationFilter.OnUpdates]
      cases hf : filteredUpdates v1v v3v updates with
      | none => exact absurd hf (h updates (List.mem_cons_self _ _))
      | some out => exact ih hrest _

/-! ## A filtered update is a fixed point -/

theorem filterUpdate_ptr_of_not_nodeKey (v1v v3v : Validator) (key : Key) (r : Record)
    (rev : String) (ty : UpdateType) (hkey : ∀ n, key ≠ Key.NodeKey n) :
    filterUpdate v1v v3v ⟨key, Value.Ptr r, rev, ty⟩ =
      if (validatorFunc v1v v3v key r).isSome then some ⟨key, Value.nil, rev, ty⟩
      else missingNameStep ⟨key, Value.Ptr r, rev, ty⟩ := by
  cases hb : (validatorFunc v1v v3v key r).isSome <;>
    cases key <;> first
      | exact absurd rfl (hkey _)
      | simp [filterUpdate, validateStep, nodeKeyStep, missingNameStep, hb]

theorem filterUpdate_idem_ptr_of_not_nodeKey (v1v v3v : Validator) (key : Key) (r : Record)
    (rev : String) (ty : UpdateType) (filtered : Update) (hkey : ∀ n, key ≠ Key.NodeKey n)
    (h : filterUpdate v1v v3v ⟨key, Value.Ptr r, rev, ty⟩ = some filtered) :
    filterUpdate v1v v3v filtered = some filtered := by
  have hself := filterUpdate_ptr_of_not_nodeKey v1v v3v key r rev ty hkey
  rw [hself] at h
  cases hb : (validatorFunc v1v v3v key r).isSome with
  | true =>
    simp only [hb, ite_true, Option.some.injEq] at h
    subst h
    simp [filterUpdate]
  | false =>
    simp only [hb, Bool.false_eq_true, ite_false] at h
    have hnil : filterUpdate v1v v3v ⟨key, Value.nil, rev, ty⟩ = some ⟨key, Value.nil, rev, ty⟩ := by
      simp [filterUpdate]
    have hsame : missingNameStep ⟨key, Value.Ptr r, rev, ty⟩ = some ⟨key, Value.Ptr r, rev, ty⟩ →
        filterUpdate v1v v3v ⟨key, Value.Ptr r, rev, ty⟩ = some ⟨key, Value.Ptr r, rev, ty⟩ := by
      intro hm
      rw [hself]
      simp [hb, hm]
    cases r with
    | Node node =>
      have hm : missingNameStep ⟨key, Value.Ptr (Record.Node node), rev, ty⟩ =
          some ⟨key, Value.Ptr (Record.Node node), rev, ty⟩ := by simp [missingNameStep]
      rw [hm] at h
      cases h
      exact hsame hm
    | Other t fs =>
      have hm : missingNameStep ⟨key, Value.Ptr (Record.Other t fs), rev, ty⟩ =
          some ⟨key, Value.Ptr (Record.Other t fs), rev, ty⟩ := by simp [missingNameStep]
      rw [hm] at h
      cases h
      exact hsame hm
    | WorkloadEndpoint wep =>
      by_cases hname : wep.Name = ""
      · have hm : missingNameStep ⟨key, Value.Ptr (Record.WorkloadEndpoint wep), rev, ty⟩ =
            some ⟨key, Value.nil, rev, ty⟩ := by simp [missingNameStep, hname]
        rw [hm] at h
        cases h
        exact hnil
      · have hm : missingNameStep ⟨key, Value.Ptr (Record.WorkloadEndpoint wep), rev, ty⟩ =
            some ⟨key, Value.Ptr (Record.WorkloadEndpoint wep), rev, ty⟩ := by
          simp [missingNameStep, hname]
        rw [hm] at h
        cases h
        exact hsame hm

theorem filterUpdate_idem_ptr_nodeKey (v1v v3v : Validator) (n : String) (r : Record)
    (rev : String) (ty : UpdateType) (filtered : Update)
    (h : filterUpdate v1v v3v ⟨Key.NodeKey n, Value.Ptr r, rev, ty⟩ = some filtered) :
    filterUpdate v1v v3v filtered = some filtered := by
  have hnil : filterUpdate v1v v3v ⟨Key.HostIPKey n, Value.nil, rev, ty⟩ =
      some ⟨Key.HostIPKey n, Value.nil, rev, ty⟩ := by simp [filterUpdate]
  cases hv : v1v r with
  | some e =>
    have hf : filterUpdate v1v v3v ⟨Key.NodeKey n, Value.Ptr r, rev, ty⟩ =
        some ⟨Key.HostIPKey n, Value.nil, rev, ty⟩ := by
      simp [filterUpdate, validatorFunc, validateStep, nodeKeyStep, missingNameStep, hv]
    rw [hf] at h
    cases h
    exact hnil
  | none =>
    cases r with
    | Node node =>
      cases ha : node.FelixIPv4 with
      | none =>
        have hf : filterUpdate v1v v3v ⟨Key.NodeKey n, Value.Ptr (Record.Node node), rev, ty⟩ =
            some ⟨Key.HostIPKey n, Value.NilIPPtr, rev, ty⟩ := by
          simp [filterUpdate, validatorFunc, validateStep, nodeKeyStep, missingNameStep, hv, ha,
            ifaceOfIPPtr]
        rw [hf] at h
        cases h
        simp [filterUpdate, validateStep, nodeKeyStep, missingNameStep]
      | some a =>
        have hf : filterUpdate v1v v3v ⟨Key.NodeKey n, Value.Ptr (Record.Node node), rev, ty⟩ =
            some ⟨Key.HostIPKey n, Value.IPPtr a, rev, ty⟩ := by
          simp [filterUpdate, validatorFunc, validateStep, nodeKeyStep, missingNameStep, hv, ha,
            ifaceOfIPPtr]
        rw [hf] at h
        cases h
        simp [filterUpdate, validateStep, nodeKeyStep, missingNameStep]
    | WorkloadEndpoint wep =>
      have hf : filterUpdate v1v v3v
          ⟨Key.NodeKey n, Value.Ptr (Record.WorkloadEndpoint wep), rev, ty⟩ =
          some ⟨Key.HostIPKey n, Value.nil, rev, ty⟩ := by
        simp [filterUpdate, validatorFunc, validateStep, nodeKeyStep, missingNameStep, hv]
      rw [hf] at h
      cases h
      exact hnil
    | Other t fs =>
      have hf : filterUpdate v1v v3v ⟨Key.NodeKey n, Value.Ptr (Record.Other t fs), rev, ty⟩ =
          some ⟨Key.HostIPKey n, Value.nil, rev, ty⟩ := by
        simp [filterUpdate, validatorFunc, validateStep, nodeKeyStep, missingNameStep, hv]
      rw [hf] at h
      cases h
      exact hnil

/-- A second pass over a filtered update does not fault and changes nothing. -/
theorem filterUpdate_idem (v1v v3v : Validator) (update filtered : Update)
    (h : filterUpdate v1v v3v update = some filtered) :
    filterUpdate v1v v3v filtered = some filtered := by
  obtain ⟨key, value, rev, ty⟩ := update
  cases value with
  | nil =>
    simp only [filterUpdate, ne_eq, not_true_eq_false, ite_false, Option.some.injEq] at h
    subst h
    simp [filterUpdate]
  | NilNodePtr =>
    cases key <;> simp [filterUpdate, validateStep, nodeKeyStep, missingNameStep] at h <;>
      subst h <;> simp [filterUpdate, validateStep, nodeKeyStep, missingNameStep]
  | NilWorkloadEndpointPtr =>
    cases key <;> simp [filterUpdate, validateStep, nodeKeyStep, missingNameStep] at h
    subst h
    simp [filterUpdate, validateStep, nodeKeyStep, missingNameStep]
  | IPPtr ip =>
    cases key <;> simp [filterUpdate, validateStep, nodeKeyStep, missingNameStep] at h <;>
      subst h <;> simp [filterUpdate, validateStep, nodeKeyStep, missingNameStep]
  | NilIPPtr =>
    cases key <;> simp [filterUpdate, validateStep, nodeKeyStep, missingNameStep] at h <;>
      subst h <;> simp [filterUpdate, validateStep, nodeKeyStep, missingNameStep]
  | Scalar t x =>
    cases key <;> simp [filterUpdate, validateStep, nodeKeyStep, missingNameStep] at h <;>
      subst h <;> simp [filterUpdate, validateStep, nodeKeyStep, missingNameStep]
  | Ptr r =>
    cases key with
    | NodeKey n => exact filterUpdate_idem_ptr_nodeKey v1v v3v n r rev ty filtered h
    | nil =>
      exact filterUpdate_idem_ptr_of_not_nodeKey v1v v3v _ r rev ty filtered
        (fun _ hn => Key.noConfusion hn) h
    | HostIPKey hn =>
      exact filterUpdate_idem_ptr_of_not_nodeKey v1v v3v _ r rev ty filtered
        (fun _ hn => Key.noConfusion hn) h
    | WorkloadEndpointKey hn o w e =>
      exact filterUpdate_idem_ptr_of_not_nodeKey v1v v3v _ r rev ty filtered
        (fun _ hn => Key.noConfusion hn) h
    | ResourceKey k nm ns =>
      exact filterUpdate_idem_ptr_of_not_nodeKey v1v v3v _ r rev ty filtered
        (fun _ hn => Key.noConfusion hn) h
    | Other t x =>
      exact filterUpdate_idem_ptr_of_not_nodeKey v1v v3v _ r rev ty filtered
        (fun _ hn => Key.noConfusion hn) h

/-! ## Claims -/

/-- C1: a present pointer-to-struct value rejected by the validator selected
for its key (v3 for a resource key, v1 for every other key) does not fault and
is forwarded at the same position with a nil value; the key is the input key,
or the Host-IP key of the same host when the input key is a Node key. -/
theorem invalid_record_is_tombstoned (v1v v3v : Validator) (updates out : List Update)
    (i : Nat) (update : Update) (r : Record)
    (hout : filteredUpdates v1v v3v updates = some out)
    (hi : updates[i]? = some update)
    (hv : update.Value = Value.Ptr r)
    (hrej : (∃ k n ns, update.Key = Key.ResourceKey k n ns ∧ v3v r ≠ none) ∨
            ((∀ k n ns, update.Key ≠ Key.ResourceKey k n ns) ∧ v1v r ≠ none)) :
    filterUpdate v1v v3v update =
      some { update with
        Key := (match update.Key with
          | Key.NodeKey h => Key.HostIPKey h
          | k => k),
        Value := Value.nil } ∧
    out[i]? =
      some { update with
        Key := (match update.Key with
          | Key.NodeKey h => Key.HostIPKey h
          | k => k),
        Value := Value.nil } := by
  have hf : filterUpdate v1v v3v update =
      some { update with
        Key := (match update.Key with
          | Key.NodeKey h => Key.HostIPKey h
          | k => k),
        Value := Value.nil } := by
    obtain ⟨key, value, rev, ty⟩ := update
    simp only at hv
    subst hv
    rcases hrej with ⟨k, n, ns, hk, hr⟩ | ⟨hk, hr⟩
    · simp only at hk
      subst hk
      have hs : (v3v r).isSome = true := by
        cases h : v3v r with
        | none => exact absurd h hr
        | some e => rfl
      simp [filterUpdate, validatorFunc, validateStep, nodeKeyStep, missingNameStep, hs]
    · have hs : (v1v r).isSome = true := by
        cases h : v1v r with
        | none => exact absurd h hr
        | some e => rfl
      cases key <;>
        first
        | exact absurd rfl (hk _ _ _)
        | simp [filterUpdate, validatorFunc, validateStep, nodeKeyStep, missingNameStep, hs]
  exact ⟨hf, filteredUpdates_at v1v v3v updates out i update _ hout hi hf⟩

/-- Witness for C1: a Node record under a Node key, rejected by the v1
validator, is forwarded as the Host-IP key with a nil value. -/
theorem invalid_record_is_tombstoned_witness :
    filteredUpdates rejectAll acceptAll
      [{ Key := Key.WorkloadEndpointKey "n0" "k8s" "w0" "eth0", Value := Value.Scalar "string" "x" },
       { Key := Key.NodeKey "n1", Value := Value.Ptr (Record.Node { FelixIPv4 := some ⟨"10.0.0.5"⟩ }) }] =
      some [{ Key := Key.WorkloadEndpointKey "n0" "k8s" "w0" "eth0", Value := Value.Scalar "string" "x" },
            { Key := Key.HostIPKey "n1", Value := Value.nil }] ∧
    filterUpdate rejectAll acceptAll
      { Key := Key.NodeKey "n1", Value := Value.Ptr (Record.Node { FelixIPv4 := some ⟨"10.0.0.5"⟩ }) } =
      some { Key := Key.HostIPKey "n1", Value := Value.nil } ∧
    [{ Key := Key.WorkloadEndpointKey "n0" "k8s" "w0" "eth0", Value := Value.Scalar "string" "x" },
     ({ Key := Key.HostIPKey "n1", Value := Value.nil } : Update)][1]? =
      some { Key := Key.HostIPKey "n1", Value := Value.nil } :=
  ⟨by decide,
   invalid_record_is_tombstoned rejectAll acceptAll
    [{ Key := Key.WorkloadEndpointKey "n0" "k8s" "w0" "eth0", Value := Value.Scalar "string" "x" },
     { Key := Key.NodeKey "n1", Value := Value.Ptr (Record.Node { FelixIPv4 := some ⟨"10.0.0.5"⟩ }) }]
    [{ Key := Key.WorkloadEndpointKey "n0" "k8s" "w0" "eth0", Value := Value.Scalar "string" "x" },
     { Key := Key.HostIPKey "n1", Value := Value.nil }]
    1
    { Key := Key.NodeKey "n1", Value := Value.Ptr (Record.Node { FelixIPv4 := some ⟨"10.0.0.5"⟩ }) }
    (Record.Node { FelixIPv4 := some ⟨"10.0.0.5"⟩ }) (by decide) rfl rfl
    (Or.inr ⟨fun _ _ _ h => Key.noConfusion h, fun h => Option.noConfusion h⟩)⟩

/-- C2: the batch handed to the sink is the positionwise image of the input
batch: it has the length of the input batch and its element at every position
is the filtered form of the input element at that position.  A batch is handed
to the sink exactly when no update of it faults; filtering distributes over
concatenation, and the empty batch is forwarded as the empty batch. -/
theorem batch_is_positionwise_map (v1v v3v : Validator) :
    (∀ B out : List Update, filteredUpdates v1v v3v B = some out ↔
      List.Forall₂ (fun u o => filterUpdate v1v v3v u = some o) B out) ∧
    (∀ B out : List Update, filteredUpdates v1v v3v B = some out →
      out.length = B.length) ∧
    (∀ (B out : List Update) (i : Nat), filteredUpdates v1v v3v B = some out →
      (out[i]?).map some = (B[i]?).map (filterUpdate v1v v3v)) ∧
    (∀ B : List Update, filteredUpdates v1v v3v B = none ↔
      ∃ u ∈ B, filterUpdate v1v v3v u = none) ∧
    (∀ B1 B2 : List Update,
      filteredUpdates v1v v3v (B1 ++ B2) =
        (filteredUpdates v1v v3v B1).bind (fun out1 =>
          (filteredUpdates v1v v3v B2).map (fun out2 => out1 ++ out2))) ∧
    filteredUpdates v1v v3v [] = some [] := by
  refine ⟨filteredUpdates_eq_some_iff v1v v3v, ?_, ?_, filteredUpdates_eq_none_iff v1v v3v,
    ?_, ?_⟩
  · intro B out h
    exact ((filteredUpdates_eq_some_iff v1v v3v B out).mp h).length_eq.symm
  · intro B out i h
    have h2 := (filteredUpdates_eq_some_iff v1v v3v B out).mp h
    cases hi : B[i]? with
    | none =>
      have hlen : out.length = B.length := h2.length_eq.symm
      have : out[i]? = none := by
        rw [List.getElem?_eq_none_iff] at hi ⊢
        omega
      simp [this]
    | some u =>
      obtain ⟨o, ho, hfo⟩ := forall₂_getElem? v1v v3v B out h2 i u hi
      simp [ho, hfo]
  · intro B1 B2
    cases h1 : filteredUpdates v1v v3v B1 with
    | none =>
      obtain ⟨u, hu, hun⟩ := (filteredUpdates_eq_none_iff v1v v3v B1).mp h1
      simpa using (filteredUpdates_eq_none_iff v1v v3v (B1 ++ B2)).mpr
        ⟨u, List.mem_append_left _ hu, hun⟩
    | some out1 =>
      cases h2 : filteredUpdates v1v v3v B2 with
      | none =>
        obtain ⟨u, hu, hun⟩ := (filteredUpdates_eq_none_iff v1v v3v B2).mp h2
        simpa using (filteredUpdates_eq_none_iff v1v v3v (B1 ++ B2)).mpr
          ⟨u, List.mem_append_right _ hu, hun⟩
      | some out2 =>
        have h12 := List.rel_append ((filteredUpdates_eq_some_iff v1v v3v B1 out1).mp h1)
          ((filteredUpdates_eq_some_iff v1v v3v B2 out2).mp h2)
        simpa using (filteredUpdates_eq_some_iff v1v v3v (B1 ++ B2) (out1 ++ out2)).mpr h12
  · exact (filteredUpdates_eq_some_iff v1v v3v [] []).mpr List.Forall₂.nil

/-- C3: a Node record accepted by the v1 validator whose `FelixIPv4` is the
non-nil address `a`, under `NodeKey n`, does not fault and is forwarded as
`HostIPKey n` with the address `a` as its value; no other field of the Node is
kept. -/
theorem node_is_projected_to_host_ip (v1v v3v : Validator) (updates out : List Update)
    (i : Nat) (update : Update) (n : String) (node : Node) (a : IP)
    (hout : filteredUpdates v1v v3v updates = some out)
    (hi : updates[i]? = some update)
    (hk : update.Key = Key.NodeKey n)
    (hv : update.Value = Value.Ptr (Record.Node node))
    (hacc : v1v (Record.Node node) = none)
    (haddr : node.FelixIPv4 = some a) :
    filterUpdate v1v v3v update =
      some { update with Key := Key.HostIPKey n, Value := Value.IPPtr a } ∧
    out[i]? = some { update with Key := Key.HostIPKey n, Value := Value.IPPtr a } := by
  have hf : filterUpdate v1v v3v update =
      some { update with Key := Key.HostIPKey n, Value := Value.IPPtr a } := by
    obtain ⟨key, value, rev, ty⟩ := update
    simp only at hk hv
    subst hk hv
    simp [filterUpdate, validatorFunc, validateStep, nodeKeyStep, missingNameStep, hacc, haddr,
      ifaceOfIPPtr]
  exact ⟨hf, filteredUpdates_at v1v v3v updates out i update _ hout hi hf⟩

/-- Witness for C3: `(NodeKey "n1", Node with FelixIPv4 10.0.0.5)` yields
`(HostIPKey "n1", 10.0.0.5)`. -/
theorem node_is_projected_to_host_ip_witness :
    filteredUpdates acceptAll acceptAll
      [{ Key := Key.NodeKey "n1",
         Value := Value.Ptr (Record.Node
           { FelixIPv4 := some ⟨"10.0.0.5"⟩, Labels := [("rack", "r1")], BGPASNumber := some 64512 }) }] =
      some [{ Key := Key.HostIPKey "n1", Value := Value.IPPtr ⟨"10.0.0.5"⟩ }] ∧
    filterUpdate acceptAll acceptAll
      { Key := Key.NodeKey "n1",
        Value := Value.Ptr (Record.Node
          { FelixIPv4 := some ⟨"10.0.0.5"⟩, Labels := [("rack", "r1")], BGPASNumber := some 64512 }) } =
      some { Key := Key.HostIPKey "n1", Value := Value.IPPtr ⟨"10.0.0.5"⟩ } ∧
    [({ Key := Key.HostIPKey "n1", Value := Value.IPPtr ⟨"10.0.0.5"⟩ } : Update)][0]? =
      some { Key := Key.HostIPKey "n1", Value := Value.IPPtr ⟨"10.0.0.5"⟩ } :=
  ⟨by decide,
   node_is_projected_to_host_ip acceptAll acceptAll
    [{ Key := Key.NodeKey "n1",
       Value := Value.Ptr (Record.Node
         { FelixIPv4 := some ⟨"10.0.0.5"⟩, Labels := [("rack", "r1")], BGPASNumber := some 64512 }) }]
    [{ Key := Key.HostIPKey "n1", Value := Value.IPPtr ⟨"10.0.0.5"⟩ }] 0 _ "n1"
    { FelixIPv4 := some ⟨"10.0.0.5"⟩, Labels := [("rack", "r1")], BGPASNumber := some 64512 }
    ⟨"10.0.0.5"⟩ (by decide) rfl rfl rfl rfl rfl⟩

/-- C4: a `*WorkloadEndpoint` whose `Name` is empty does not fault and is
forwarded at the same position with a nil value, under every key and whatever
the two validators answer; the key is the input key, or the Host-IP key of the
same host when the input key is a Node key, and the rest of the update is kept. -/
theorem empty_name_endpoint_is_tombstoned (v1v v3v : Validator) (updates out : List Update)
    (i : Nat) (update : Update) (wep : WorkloadEndpoint)
    (hout : filteredUpdates v1v v3v updates = some out)
    (hi : updates[i]? = some update)
    (hv : update.Value = Value.Ptr (Record.WorkloadEndpoint wep))
    (hname : wep.Name = "") :
    filterUpdate v1v v3v update =
      some { update with
        Key := (match update.Key with
          | Key.NodeKey h => Key.HostIPKey h
          | k => k),
        Value := Value.nil } ∧
    out[i]? =
      some { update with
        Key := (match update.Key with
          | Key.NodeKey h => Key.HostIPKey h
          | k => k),
        Value := Value.nil } := by
  have hf : filterUpdate v1v v3v update =
      some { update with
        Key := (match update.Key with
          | Key.NodeKey h => Key.HostIPKey h
          | k => k),
        Value := Value.nil } := by
    obtain ⟨key, value, rev, ty⟩ := update
    simp only at hv
    subst hv
    simp only [filterUpdate]
    generalize validatorFunc v1v v3v key = validate
    cases hb : (validate (Record.WorkloadEndpoint wep)).isSome <;>
      cases key <;> simp [validateStep, nodeKeyStep, missingNameStep, hb, hname]
  exact ⟨hf, filteredUpdates_at v1v v3v updates out i update _ hout hi hf⟩

/-- Witness for C4: `(WorkloadEndpointKey n1 wep1, WorkloadEndpoint with empty
name)` is forwarded under the same key with a nil value although the validator
accepts it. -/
theorem empty_name_endpoint_is_tombstoned_witness :
    filteredUpdates acceptAll acceptAll
      [{ Key := Key.NodeKey "n1", Value := Value.Ptr (Record.Node { FelixIPv4 := some ⟨"10.0.0.5"⟩ }) },
       { Key := Key.WorkloadEndpointKey "n1" "k8s" "w1" "wep1",
         Value := Value.Ptr (Record.WorkloadEndpoint { Name := "" }), Revision := "7" }] =
      some [{ Key := Key.HostIPKey "n1", Value := Value.IPPtr ⟨"10.0.0.5"⟩ },
            { Key := Key.WorkloadEndpointKey "n1" "k8s" "w1" "wep1", Value := Value.nil,
              Revision := "7" }] ∧
    filterUpdate acceptAll acceptAll
      { Key := Key.WorkloadEndpointKey "n1" "k8s" "w1" "wep1",
        Value := Value.Ptr (Record.WorkloadEndpoint { Name := "" }), Revision := "7" } =
      some { Key := Key.WorkloadEndpointKey "n1" "k8s" "w1" "wep1", Value := Value.nil,
             Revision := "7" } ∧
    [{ Key := Key.HostIPKey "n1", Value := Value.IPPtr ⟨"10.0.0.5"⟩ },
     ({ Key := Key.WorkloadEndpointKey "n1" "k8s" "w1" "wep1", Value := Value.nil,
        Revision := "7" } : Update)][1]? =
      some { Key := Key.WorkloadEndpointKey "n1" "k8s" "w1" "wep1", Value := Value.nil,
             Revision := "7" } :=
  ⟨by decide,
   empty_name_endpoint_is_tombstoned acceptAll acceptAll
    [{ Key := Key.NodeKey "n1", Value := Value.Ptr (Record.Node { FelixIPv4 := some ⟨"10.0.0.5"⟩ }) },
     { Key := Key.WorkloadEndpointKey "n1" "k8s" "w1" "wep1",
       Value := Value.Ptr (Record.WorkloadEndpoint { Name := "" }), Revision := "7" }]
    [{ Key := Key.HostIPKey "n1", Value := Value.IPPtr ⟨"10.0.0.5"⟩ },
     { Key := Key.WorkloadEndpointKey "n1" "k8s" "w1" "wep1", Value := Value.nil,
       Revision := "7" }]
    1
    { Key := Key.WorkloadEndpointKey "n1" "k8s" "w1" "wep1",
      Value := Value.Ptr (Record.WorkloadEndpoint { Name := "" }), Revision := "7" }
    { Name := "" } (by decide) rfl rfl rfl⟩

/-- C5: driving the filter with any sequence of calls makes the sink receive
one call per input call, of the same kind and in the same order; a status
call carries the same status and an update call carries, in one call, the
filtered batch of the corresponding input call.  The run completes whenever no
batch faults.  The filter adds no state of its own: any sink ends in the state
it reaches when the recorded calls are delivered to it directly. -/
theorem calls_pass_through_one_for_one (v1v v3v : Validator) (log calls : List Call) :
    (∀ final, (NewValidationFilter recordingSink).run v1v v3v log calls = some final ↔
      ∃ received, final = log ++ received ∧
        List.Forall₂ (fun c d => match c with
          | Call.OnStatusUpdated status => d = Call.OnStatusUpdated status
          | Call.OnUpdates updates =>
            ∃ out, filteredUpdates v1v v3v updates = some out ∧ d = Call.OnUpdates out)
          calls received) ∧
    (∀ final, (NewValidationFilter recordingSink).run v1v v3v log calls = some final →
      final.length = log.length + calls.length) ∧
    ((∀ updates, Call.OnUpdates updates ∈ calls → filteredUpdates v1v v3v updates ≠ none) →
      ∃ final, (NewValidationFilter recordingSink).run v1v v3v log calls = some final) ∧
    (∀ (σ : Type) (sink : SyncerCallbacks σ) (s : σ),
      (NewValidationFilter sink).run v1v v3v s calls =
        ((NewValidationFilter recordingSink).run v1v v3v [] calls).map (sink.deliver s)) := by
  have hiff : ∀ final, (NewValidationFilter recordingSink).run v1v v3v log calls = some final ↔
      ∃ received, final = log ++ received ∧
        List.Forall₂ (fun c d => match c with
          | Call.OnStatusUpdated status => d = Call.OnStatusUpdated status
          | Call.OnUpdates updates =>
            ∃ out, filteredUpdates v1v v3v updates = some out ∧ d = Call.OnUpdates out)
          calls received := by
    intro final
    rw [run_recording_shift, Option.map_eq_some']
    constructor
    · rintro ⟨r, hr, rfl⟩
      exact ⟨r, rfl, (run_recording_iff v1v v3v calls r).mp hr⟩
    · rintro ⟨r, rfl, hr⟩
      exact ⟨r, (run_recording_iff v1v v3v calls r).mpr hr, rfl⟩
  refine ⟨hiff, ?_, ?_, ?_⟩
  · intro final h
    obtain ⟨r, rfl, hr⟩ := (hiff final).mp h
    simp [hr.length_eq]
  · intro h
    exact run_recording_isSome v1v v3v calls h log
  · intro σ sink s
    exact run_eq_deliver sink v1v v3v calls s

/-- C6, evaluated on the code: a Node key whose value is already nil is
forwarded unchanged, still under the Node key, whatever the validators are. -/
theorem nil_value_keeps_node_key (v1v v3v : Validator) :
    filteredUpdates v1v v3v
        [{ Key := Key.NodeKey "n1", Value := Value.nil,
           UpdateType := UpdateType.UpdateTypeKVDeleted }] =
      some [{ Key := Key.NodeKey "n1", Value := Value.nil,
              UpdateType := UpdateType.UpdateTypeKVDeleted }] ∧
    filteredUpdates v1v v3v
        [{ Key := Key.NodeKey "n1", Value := Value.nil,
           UpdateType := UpdateType.UpdateTypeKVDeleted }] ≠
      some [{ Key := Key.HostIPKey "n1", Value := Value.nil,
              UpdateType := UpdateType.UpdateTypeKVDeleted }] := by
  have h : filteredUpdates v1v v3v
        [{ Key := Key.NodeKey "n1", Value := Value.nil,
           UpdateType := UpdateType.UpdateTypeKVDeleted }] =
      some [{ Key := Key.NodeKey "n1", Value := Value.nil,
              UpdateType := UpdateType.UpdateTypeKVDeleted }] := by
    apply filteredUpdates_of_forall₂
    exact List.Forall₂.cons (by simp [filterUpdate]) List.Forall₂.nil
  refine ⟨h, ?_⟩
  rw [h]
  simp

/-- C7, as stated, fails: under a Node key, a nil `*model.Node` is present and
holds no Node record, yet the assertion of line 78 succeeds, line 80
dereferences the nil pointer and nothing is forwarded. -/
theorem nil_node_pointer_faults :
    Value.NilNodePtr ≠ Value.nil ∧
    filterUpdate acceptAll acceptAll
      { Key := Key.NodeKey "n1", Value := Value.NilNodePtr } = none ∧
    filteredUpdates acceptAll acceptAll
      [{ Key := Key.NodeKey "n1", Value := Value.NilNodePtr }] = none := by
  decide

/-- C7, amended: under `NodeKey n`, a value that is present, is not a Node
record and is not a nil `*model.Node` does not fault and is forwarded as
`HostIPKey n` with a nil value, whether the validator accepted it or not. -/
theorem non_node_value_under_node_key (v1v v3v : Validator) (updates out : List Update)
    (i : Nat) (update : Update) (n : String)
    (hout : filteredUpdates v1v v3v updates = some out)
    (hi : updates[i]? = some update)
    (hk : update.Key = Key.NodeKey n)
    (hpresent : update.Value ≠ Value.nil)
    (hnot : ∀ node, update.Value ≠ Value.Ptr (Record.Node node))
    (hnilptr : update.Value ≠ Value.NilNodePtr) :
    filterUpdate v1v v3v update =
      some { update with Key := Key.HostIPKey n, Value := Value.nil } ∧
    out[i]? = some { update with Key := Key.HostIPKey n, Value := Value.nil } := by
  have hf : filterUpdate v1v v3v update =
      some { update with Key := Key.HostIPKey n, Value := Value.nil } := by
    obtain ⟨key, value, rev, ty⟩ := update
    simp only at hk hpresent hnot hnilptr
    subst hk
    simp only [filterUpdate]
    generalize validatorFunc v1v v3v (Key.NodeKey n) = validate
    cases value with
    | nil => exact absurd rfl hpresent
    | NilNodePtr => exact absurd rfl hnilptr
    | NilWorkloadEndpointPtr => simp [validateStep, nodeKeyStep, missingNameStep]
    | IPPtr ip => simp [validateStep, nodeKeyStep, missingNameStep]
    | NilIPPtr => simp [validateStep, nodeKeyStep, missingNameStep]
    | Scalar t x => simp [validateStep, nodeKeyStep, missingNameStep]
    | Ptr r =>
      cases r with
      | Node node => exact absurd rfl (hnot node)
      | WorkloadEndpoint wep =>
        cases hb : (validate (Record.WorkloadEndpoint wep)).isSome <;>
          simp [validateStep, nodeKeyStep, missingNameStep, hb]
      | Other t fs =>
        cases hb : (validate (Record.Other t fs)).isSome <;>
          simp [validateStep, nodeKeyStep, missingNameStep, hb]
  exact ⟨hf, filteredUpdates_at v1v v3v updates out i update _ hout hi hf⟩

/-- Witness for C7, amended: a scalar and a nil `*model.WorkloadEndpoint` under
Node keys. -/
theorem non_node_value_under_node_key_witness :
    filteredUpdates acceptAll acceptAll
      [{ Key := Key.NodeKey "n1", Value := Value.Scalar "string" "10.0.0.5" },
       { Key := Key.NodeKey "n2", Value := Value.NilWorkloadEndpointPtr }] =
      some [{ Key := Key.HostIPKey "n1", Value := Value.nil },
            { Key := Key.HostIPKey "n2", Value := Value.nil }] ∧
    filterUpdate acceptAll acceptAll
      { Key := Key.NodeKey "n2", Value := Value.NilWorkloadEndpointPtr } =
      some { Key := Key.HostIPKey "n2", Value := Value.nil } ∧
    [{ Key := Key.HostIPKey "n1", Value := Value.nil },
     ({ Key := Key.HostIPKey "n2", Value := Value.nil } : Update)][1]? =
      some { Key := Key.HostIPKey "n2", Value := Value.nil } :=
  ⟨by decide,
   non_node_value_under_node_key acceptAll acceptAll
    [{ Key := Key.NodeKey "n1", Value := Value.Scalar "string" "10.0.0.5" },
     { Key := Key.NodeKey "n2", Value := Value.NilWorkloadEndpointPtr }]
    [{ Key := Key.HostIPKey "n1", Value := Value.nil },
     { Key := Key.HostIPKey "n2", Value := Value.nil }]
    1 { Key := Key.NodeKey "n2", Value := Value.NilWorkloadEndpointPtr } "n2"
    (by decide) rfl rfl
    (fun h => Value.noConfusion h) (fun _ h => Value.noConfusion h)
    (fun h => Value.noConfusion h)⟩

/-- C8, as stated, fails: under a key that is not a Node key, a nil
`*model.WorkloadEndpoint` is present and is not a pointer to a struct, so it
is not validated; the type switch of line 90 matches it, line 91 dereferences
the nil pointer and nothing is forwarded. -/
theorem nil_endpoint_pointer_faults :
    Value.NilWorkloadEndpointPtr ≠ Value.nil ∧
    filterUpdate acceptAll acceptAll
      { Key := Key.WorkloadEndpointKey "n1" "k8s" "w1" "wep1",
        Value := Value.NilWorkloadEndpointPtr } = none ∧
    filteredUpdates acceptAll acceptAll
      [{ Key := Key.WorkloadEndpointKey "n1" "k8s" "w1" "wep1",
         Value := Value.NilWorkloadEndpointPtr }] = none := by
  decide

/-- C8, amended: under a key that is not a Node key, an update whose value is
nil, or is neither a pointer to a struct nor a nil `*model.WorkloadEndpoint`,
or is a pointer to a struct accepted by the validator selected for its key,
and is not a workload endpoint with an empty name, does not fault and is
forwarded unchanged.  Only the selected validator is constrained, and only in
the third case. -/
theorem untouched_updates_pass_through (v1v v3v : Validator) (updates out : List Update)
    (i : Nat) (update : Update)
    (hout : filteredUpdates v1v v3v updates = some out)
    (hi : updates[i]? = some update)
    (hkey : ∀ n, update.Key ≠ Key.NodeKey n)
    (hval : update.Value = Value.nil ∨
      ((∀ r, update.Value ≠ Value.Ptr r) ∧ update.Value ≠ Value.NilWorkloadEndpointPtr) ∨
      (∃ r, update.Value = Value.Ptr r ∧
        ((∃ k n ns, update.Key = Key.ResourceKey k n ns ∧ v3v r = none) ∨
         ((∀ k n ns, update.Key ≠ Key.ResourceKey k n ns) ∧ v1v r = none))))
    (hwep : ∀ wep, update.Value = Value.Ptr (Record.WorkloadEndpoint wep) → wep.Name ≠ "") :
    filterUpdate v1v v3v update = some update ∧ out[i]? = some update := by
  have hf : filterUpdate v1v v3v update = some update := by
    obtain ⟨key, value, rev, ty⟩ := update
    simp only at hkey hval hwep
    rcases hval with h | ⟨h, hn⟩ | ⟨r, h, hsel⟩
    · subst h; simp [filterUpdate]
    · cases value with
      | nil => simp [filterUpdate]
      | Ptr r => exact absurd rfl (h r)
      | NilWorkloadEndpointPtr => exact absurd rfl hn
      | NilNodePtr =>
        cases key <;> first
          | exact absurd rfl (hkey _)
          | simp [filterUpdate, validateStep, nodeKeyStep, missingNameStep]
      | IPPtr ip =>
        cases key <;> first
          | exact absurd rfl (hkey _)
          | simp [filterUpdate, validateStep, nodeKeyStep, missingNameStep]
      | NilIPPtr =>
        cases key <;> first
          | exact absurd rfl (hkey _)
          | simp [filterUpdate, validateStep, nodeKeyStep, missingNameStep]
      | Scalar t x =>
        cases key <;> first
          | exact absurd rfl (hkey _)
          | simp [filterUpdate, validateStep, nodeKeyStep, missingNameStep]
    · subst h
      have hacc : validatorFunc v1v v3v key r = none := by
        rcases hsel with ⟨k, n, ns, hk, hr⟩ | ⟨hk, hr⟩
        · subst hk; simpa [validatorFunc] using hr
        · cases key <;> first
            | exact absurd rfl (hk _ _ _)
            | simpa [validatorFunc] using hr
      have hmiss : ∀ k : Key,
          missingNameStep ⟨k, Value.Ptr r, rev, ty⟩ = some ⟨k, Value.Ptr r, rev, ty⟩ := by
        intro k
        cases r with
        | WorkloadEndpoint wep =>
          have := hwep wep rfl
          simp [missingNameStep, this]
        | Node node => simp [missingNameStep]
        | Other t fs => simp [missingNameStep]
      cases key <;> first
        | exact absurd rfl (hkey _)
        | simp [filterUpdate, validateStep, nodeKeyStep, hacc, hmiss]
  exact ⟨hf, filteredUpdates_at v1v v3v updates out i update _ hout hi hf⟩

/-- Witness for C8, amended: a well-named workload endpoint accepted by the v1
validator is forwarded as it came, although the v3 validator rejects it. -/
theorem untouched_updates_pass_through_witness :
    filteredUpdates acceptAll rejectAll
      [{ Key := Key.WorkloadEndpointKey "n1" "k8s" "w1" "wep1",
         Value := Value.Ptr (Record.WorkloadEndpoint { Name := "eth0" }),
         Revision := "42", UpdateType := UpdateType.UpdateTypeKVNew }] =
      some [{ Key := Key.WorkloadEndpointKey "n1" "k8s" "w1" "wep1",
              Value := Value.Ptr (Record.WorkloadEndpoint { Name := "eth0" }),
              Revision := "42", UpdateType := UpdateType.UpdateTypeKVNew }] ∧
    filterUpdate acceptAll rejectAll
      { Key := Key.WorkloadEndpointKey "n1" "k8s" "w1" "wep1",
        Value := Value.Ptr (Record.WorkloadEndpoint { Name := "eth0" }),
        Revision := "42", UpdateType := UpdateType.UpdateTypeKVNew } =
      some { Key := Key.WorkloadEndpointKey "n1" "k8s" "w1" "wep1",
             Value := Value.Ptr (Record.WorkloadEndpoint { Name := "eth0" }),
             Revision := "42", UpdateType := UpdateType.UpdateTypeKVNew } ∧
    [({ Key := Key.WorkloadEndpointKey "n1" "k8s" "w1" "wep1",
        Value := Value.Ptr (Record.WorkloadEndpoint { Name := "eth0" }),
        Revision := "42", UpdateType := UpdateType.UpdateTypeKVNew } : Update)][0]? =
      some { Key := Key.WorkloadEndpointKey "n1" "k8s" "w1" "wep1",
             Value := Value.Ptr (Record.WorkloadEndpoint { Name := "eth0" }),
             Revision := "42", UpdateType := UpdateType.UpdateTypeKVNew } :=
  ⟨by decide,
   untouched_updates_pass_through acceptAll rejectAll
    [{ Key := Key.WorkloadEndpointKey "n1" "k8s" "w1" "wep1",
       Value := Value.Ptr (Record.WorkloadEndpoint { Name := "eth0" }),
       Revision := "42", UpdateType := UpdateType.UpdateTypeKVNew }]
    [{ Key := Key.WorkloadEndpointKey "n1" "k8s" "w1" "wep1",
       Value := Value.Ptr (Record.WorkloadEndpoint { Name := "eth0" }),
       Revision := "42", UpdateType := UpdateType.UpdateTypeKVNew }]
    0 _ (by decide) rfl
    (fun _ h => Key.noConfusion h)
    (Or.inr (Or.inr ⟨Record.WorkloadEndpoint { Name := "eth0" }, rfl,
      Or.inr ⟨fun _ _ _ h => Key.noConfusion h, rfl⟩⟩))
    (fun wep h => by
      have hw : wep = { Name := "eth0" } := by
        simpa using (Record.WorkloadEndpoint.inj (Value.Ptr.inj h)).symm
      subst hw
      decide)⟩

/-- C9: filtering a filtered batch changes nothing, for every batch and every
pair of validators: a batch that the first pass hands to the sink is handed on
unchanged by a second pass, which does not fault; a first pass that faults
hands on nothing to filter again. -/
theorem filtering_twice_is_filtering_once (v1v v3v : Validator) (B : List Update) :
    (filteredUpdates v1v v3v B).bind (filteredUpdates v1v v3v) = filteredUpdates v1v v3v B ∧
    (∀ out, filteredUpdates v1v v3v B = some out → filteredUpdates v1v v3v out = some out) := by
  have key : ∀ out, filteredUpdates v1v v3v B = some out →
      filteredUpdates v1v v3v out = some out := by
    intro out hout
    have h2 := (filteredUpdates_eq_some_iff v1v v3v B out).mp hout
    apply filteredUpdates_of_forall₂
    have hall : ∀ (xs ys : List Update),
        List.Forall₂ (fun u o => filterUpdate v1v v3v u = some o) xs ys →
        List.Forall₂ (fun u o => filterUpdate v1v v3v u = some o) ys ys := by
      intro xs ys hxy
      induction hxy with
      | nil => exact List.Forall₂.nil
      | cons hu _ ih => exact List.Forall₂.cons (filterUpdate_idem v1v v3v _ _ hu) ih
    exact hall B out h2
  refine ⟨?_, key⟩
  cases hB : filteredUpdates v1v v3v B with
  | none => rfl
  | some out =>
    simp only [Option.some_bind]
    exact key out hB

/-- Witness for C9: the spec scenario, a Node update and an empty-name workload
endpoint, filtered and then filtered again. -/
theorem filtering_twice_is_filtering_once_witness :
    filteredUpdates acceptAll acceptAll
      [{ Key := Key.NodeKey "n1", Value := Value.Ptr (Record.Node { FelixIPv4 := some ⟨"10.0.0.5"⟩ }) },
       { Key := Key.WorkloadEndpointKey "n1" "k8s" "w1" "wep1",
         Value := Value.Ptr (Record.WorkloadEndpoint { Name := "" }) }] =
      some [{ Key := Key.HostIPKey "n1", Value := Value.IPPtr ⟨"10.0.0.5"⟩ },
            { Key := Key.WorkloadEndpointKey "n1" "k8s" "w1" "wep1", Value := Value.nil }] ∧
    filteredUpdates acceptAll acceptAll
      [{ Key := Key.HostIPKey "n1", Value := Value.IPPtr ⟨"10.0.0.5"⟩ },
       { Key := Key.WorkloadEndpointKey "n1" "k8s" "w1" "wep1", Value := Value.nil }] =
      some [{ Key := Key.HostIPKey "n1", Value := Value.IPPtr ⟨"10.0.0.5"⟩ },
            { Key := Key.WorkloadEndpointKey "n1" "k8s" "w1" "wep1", Value := Value.nil }] :=
  ⟨by decide,
   (filtering_twice_is_filtering_once acceptAll acceptAll
    [{ Key := Key.NodeKey "n1", Value := Value.Ptr (Record.Node { FelixIPv4 := some ⟨"10.0.0.5"⟩ }) },
     { Key := Key.WorkloadEndpointKey "n1" "k8s" "w1" "wep1",
       Value := Value.Ptr (Record.WorkloadEndpoint { Name := "" }) }]).2 _ (by decide)⟩

/-- C10, evaluated on the code: a Node accepted by the v1 validator whose
`FelixIPv4` is nil is forwarded under the Host-IP key with a value that holds
a nil `*net.IP`; that value is not the nil interface, so `Value != nil`
holds for the sink. -/
theorem nil_address_is_forwarded_as_present_value :
    filteredUpdates acceptAll acceptAll
        [{ Key := Key.NodeKey "n1", Value := Value.Ptr (Record.Node { FelixIPv4 := none }) }] =
      some [{ Key := Key.HostIPKey "n1", Value := Value.NilIPPtr }] ∧
    Value.NilIPPtr ≠ Value.nil := by
  decide

end Calico
